import Mathlib

/-!
Shallow embedding of `src/server.py` (the Enlil device simulator).

The script starts one TCP responder per simulated device address.  Each
responder loops forever: accept a connection, `recv(1024)` the request
(only logged), build a response string keyed by the bound address using
`random.uniform`, send it, close the connection.

Randomness model: CPython's module-level `random` generator is a single
shared stream of raw draws in `[0, 1)`.  We model it as a function
`u : Nat → ℚ` (the successive outputs of `random.random()`) together with
a cursor giving the index of the next unconsumed draw; `random.uniform a b`
maps a raw draw `x` to `a + (b - a) * x`.  Real values are idealised as
rationals; `"%.2f"` formatting is correct rounding to two decimals with
ties to even, the rounding used by float formatting.
-/

/-- One call of `random.uniform a b` applied to a raw draw `x ∈ [0,1)`:
CPython computes `a + (b - a) * x`. -/
def uniform (a b x : ℚ) : ℚ := a + (b - a) * x

/-- Round to the nearest integer, ties to even (the rounding used when a
value is formatted with `"%.2f"`). -/
def rhe (x : ℚ) : ℤ :=
  if x - ⌊x⌋ < 1/2 then ⌊x⌋
  else if 1/2 < x - ⌊x⌋ then ⌊x⌋ + 1
  else if ⌊x⌋ % 2 = 0 then ⌊x⌋ else ⌊x⌋ + 1

/-- The integer `round(100 * q)` used by two-decimal formatting. -/
def round2 (q : ℚ) : ℤ := rhe (100 * q)

/-- The character of a decimal digit. -/
def digitChar (d : Nat) : Char := Char.ofNat (48 + d)

/-- Numeric value of a digit character. -/
def digitVal (c : Char) : Nat := c.toNat - 48

/-- Decimal digits of `n`, most significant first; `fuel` bounds the
recursion depth (any `fuel > n` is enough). -/
def natDigitsAux : Nat → Nat → List Nat
  | 0, _ => []
  | fuel + 1, n => if n < 10 then [n] else natDigitsAux fuel (n / 10) ++ [n % 10]

/-- Decimal digits of `n`, most significant first (a single zero digit for
`n = 0`). -/
def natDigitList (n : Nat) : List Nat := natDigitsAux (n + 1) n

/-- Value of a most-significant-first digit list. -/
def ofDigitsNat (l : List Nat) : Nat := l.foldl (fun a d => 10 * a + d) 0

/-- Print `n` hundredths with exactly two fractional digits, as Python's
fixed-point formatting does once the value has been rounded to an integer
number of hundredths. -/
def fmtInt (n : ℤ) : List Char :=
  let m := n.natAbs
  let body := (natDigitList (m / 100)).map digitChar ++
    '.' :: [digitChar (m / 10 % 10), digitChar (m % 10)]
  if n < 0 then '-' :: body else body

/-- The character list produced by Python's `f"{q:.2f}"`: the value is
rounded to two decimals (ties to even) and printed with exactly two
fractional digits. -/
def format2Chars (q : ℚ) : List Char := fmtInt (round2 q)

/-- The string produced by Python's `f"{q:.2f}"`. -/
def format2 (q : ℚ) : String := String.mk (format2Chars q)

/-- Parse a character list of the shape `\d+\.\d\d` (an unsigned decimal
with exactly two fractional digits) into its rational value. -/
def parseFixed2 (l : List Char) : Option ℚ :=
  let ds := l.takeWhile (fun c => c.isDigit)
  let rest := l.dropWhile (fun c => c.isDigit)
  if (!ds.isEmpty) && rest.length == 3 && rest.getD 0 ' ' == '.' &&
      (rest.getD 1 ' ').isDigit && (rest.getD 2 ' ').isDigit then
    some ((ofDigitsNat (ds.map digitVal) : ℚ) +
      ((10 * digitVal (rest.getD 1 ' ') + digitVal (rest.getD 2 ' ') : ℕ) : ℚ) / 100)
  else none

/-- Decidable check that a character list matches `^\d+\.\d\x7b2\x7d$`:
one or more digits, a dot, exactly two digits. -/
def checkFixed2 (l : List Char) : Bool :=
  (parseFixed2 l).isSome

/-! Basic facts about the rounding function. -/

theorem rhe_ge (x : ℚ) : x - 1/2 ≤ (rhe x : ℚ) := by
  have h1 := Int.floor_le x
  have h2 := Int.lt_floor_add_one x
  unfold rhe
  split_ifs <;> push_cast <;> linarith

theorem rhe_le (x : ℚ) : (rhe x : ℚ) ≤ x + 1/2 := by
  have h1 := Int.floor_le x
  have h2 := Int.lt_floor_add_one x
  unfold rhe
  split_ifs <;> push_cast <;> linarith

theorem rhe_ge_floor (x : ℚ) : ⌊x⌋ ≤ rhe x := by
  unfold rhe
  split_ifs <;> omega

theorem rhe_eq_down (x : ℚ) (n : ℤ) (h1 : (n : ℚ) ≤ x) (h2 : x < (n : ℚ) + 1/2) :
    rhe x = n := by
  have hf : ⌊x⌋ = n := Int.floor_eq_iff.mpr ⟨h1, by linarith⟩
  unfold rhe
  rw [hf, if_pos (by linarith)]

theorem rhe_eq_up (x : ℚ) (n : ℤ) (h1 : (n : ℚ) - 1/2 < x) (h2 : x < (n : ℚ)) :
    rhe x = n := by
  have hf : ⌊x⌋ = n - 1 := by
    apply Int.floor_eq_iff.mpr
    constructor <;> push_cast <;> linarith
  unfold rhe
  have hc1 : ¬ (x - (((n - 1 : ℤ) : ℚ)) < 1/2) := by push_cast; linarith
  have hc2 : 1/2 < x - (((n - 1 : ℤ) : ℚ)) := by push_cast; linarith
  rw [hf, if_neg hc1, if_pos hc2]
  omega

theorem int_le_of_lt_half {n m : ℤ} (h : (n : ℚ) < (m : ℚ) + 1/2) : n ≤ m := by
  by_contra hc
  push_neg at hc
  have : ((m + 1 : ℤ) : ℚ) ≤ (n : ℚ) := by exact_mod_cast Int.add_one_le_iff.mpr hc
  push_cast at this
  linarith

theorem int_ge_of_gt_half {n m : ℤ} (h : (m : ℚ) - 1/2 < (n : ℚ)) : m ≤ n := by
  by_contra hc
  push_neg at hc
  have : ((n + 1 : ℤ) : ℚ) ≤ (m : ℚ) := by exact_mod_cast Int.add_one_le_iff.mpr hc
  push_cast at this
  linarith

/-- A value in `[lo, hi)` rounds to a hundredth count in `[100*lo, 100*hi]`
(the top end is reachable: values just below `hi` round up to it). -/
theorem round2_mem (q : ℚ) (lo hi : ℤ) (h1 : (lo : ℚ) ≤ q) (h2 : q < (hi : ℚ)) :
    100 * lo ≤ round2 q ∧ round2 q ≤ 100 * hi := by
  unfold round2
  have hle := rhe_le (100 * q)
  constructor
  · calc 100 * lo ≤ ⌊100 * q⌋ := Int.le_floor.mpr (by push_cast; linarith)
      _ ≤ rhe (100 * q) := rhe_ge_floor _
  · apply int_le_of_lt_half
    push_cast
    linarith

theorem uniform_mem (a b x : ℚ) (hab : a < b) (hx0 : 0 ≤ x) (hx1 : x < 1) :
    a ≤ uniform a b x ∧ uniform a b x < b := by
  unfold uniform
  constructor
  · nlinarith
  · nlinarith

/-! Digit lists. -/

theorem natDigitsAux_ne_nil (fuel n : Nat) (h : n < fuel) : natDigitsAux fuel n ≠ [] := by
  induction fuel generalizing n with
  | zero => omega
  | succ f ih =>
    unfold natDigitsAux
    split_ifs with h10
    · simp
    · simp

theorem natDigitsAux_all_lt (fuel n : Nat) (h : n < fuel) :
    ∀ d ∈ natDigitsAux fuel n, d < 10 := by
  induction fuel generalizing n with
  | zero => omega
  | succ f ih =>
    intro d hd
    unfold natDigitsAux at hd
    split_ifs at hd with h10
    · simp at hd; omega
    · rw [List.mem_append] at hd
      rcases hd with hd | hd
      · exact ih (n / 10) (by omega) d hd
      · simp at hd; omega

theorem ofDigitsNat_append_digit (l : List Nat) (d : Nat) :
    ofDigitsNat (l ++ [d]) = 10 * ofDigitsNat l + d := by
  unfold ofDigitsNat
  rw [List.foldl_append]
  rfl

theorem ofDigitsNat_natDigitsAux (fuel n : Nat) (h : n < fuel) :
    ofDigitsNat (natDigitsAux fuel n) = n := by
  induction fuel generalizing n with
  | zero => omega
  | succ f ih =>
    unfold natDigitsAux
    split_ifs with h10
    · show 10 * 0 + n = n
      omega
    · rw [ofDigitsNat_append_digit, ih (n / 10) (by omega)]
      omega

theorem natDigitList_ne_nil (n : Nat) : natDigitList n ≠ [] :=
  natDigitsAux_ne_nil (n + 1) n (Nat.lt_succ_self n)

theorem natDigitList_all_lt (n : Nat) : ∀ d ∈ natDigitList n, d < 10 :=
  natDigitsAux_all_lt (n + 1) n (Nat.lt_succ_self n)

theorem ofDigitsNat_natDigitList (n : Nat) : ofDigitsNat (natDigitList n) = n :=
  ofDigitsNat_natDigitsAux (n + 1) n (Nat.lt_succ_self n)

/-! Digit characters. -/

theorem digitChar_isDigit (d : Nat) (h : d < 10) : (digitChar d).isDigit = true := by
  interval_cases d <;> decide

theorem digitVal_digitChar (d : Nat) (h : d < 10) : digitVal (digitChar d) = d := by
  interval_cases d <;> decide

theorem digitChar_ne_space (d : Nat) (h : d < 10) : digitChar d ≠ ' ' := by
  interval_cases d <;> decide

theorem isDigit_ne_space (c : Char) (h : c.isDigit = true) : c ≠ ' ' := by
  intro hc
  subst hc
  simp at h

/-! Splitting a string at `takeWhile isDigit`. -/

theorem takeWhile_all_append (p : Char → Bool) (l1 l2 : List Char)
    (h : ∀ c ∈ l1, p c = true) :
    (l1 ++ l2).takeWhile p = l1 ++ l2.takeWhile p ∧
      (l1 ++ l2).dropWhile p = l2.dropWhile p := by
  induction l1 with
  | nil => simp
  | cons c cs ih =>
    have hc : p c = true := h c (by simp)
    have ih2 := ih (fun x hx => h x (by simp [hx]))
    simp only [List.cons_append, List.takeWhile_cons, List.dropWhile_cons, hc, ih2.1, ih2.2]
    simp

/-! Shape and value of a formatted number. -/

theorem fmtInt_nonneg_eq (n : ℤ) (hn : 0 ≤ n) :
    fmtInt n = (natDigitList (n.natAbs / 100)).map digitChar ++
      '.' :: [digitChar (n.natAbs / 10 % 10), digitChar (n.natAbs % 10)] := by
  unfold fmtInt
  rw [if_neg (by omega)]

theorem fmtInt_spec (n : ℤ) (hn : 0 ≤ n) :
    parseFixed2 (fmtInt n) = some ((n : ℚ) / 100) ∧
      checkFixed2 (fmtInt n) = true ∧
      fmtInt n ≠ [] ∧ (∀ c ∈ fmtInt n, c ≠ ' ') := by
  have hmn : (n.natAbs : ℤ) = n := Int.natAbs_of_nonneg hn
  have h1lt : n.natAbs / 10 % 10 < 10 := Nat.mod_lt _ (by omega)
  have h2lt : n.natAbs % 10 < 10 := Nat.mod_lt _ (by omega)
  have hall : ∀ c ∈ (natDigitList (n.natAbs / 100)).map digitChar, c.isDigit = true := by
    intro c hc
    rw [List.mem_map] at hc
    obtain ⟨d, hd, rfl⟩ := hc
    exact digitChar_isDigit d (natDigitList_all_lt _ d hd)
  have heq := fmtInt_nonneg_eq n hn
  have htw := takeWhile_all_append (fun c => c.isDigit)
    ((natDigitList (n.natAbs / 100)).map digitChar)
    ('.' :: [digitChar (n.natAbs / 10 % 10), digitChar (n.natAbs % 10)]) hall
  have hdot : ('.' : Char).isDigit = false := by decide
  have hrest_tw : ('.' :: [digitChar (n.natAbs / 10 % 10), digitChar (n.natAbs % 10)]).takeWhile
      (fun c => c.isDigit) = [] := by
    simp [List.takeWhile_cons, hdot]
  have hrest_dw : ('.' :: [digitChar (n.natAbs / 10 % 10), digitChar (n.natAbs % 10)]).dropWhile
      (fun c => c.isDigit) = '.' :: [digitChar (n.natAbs / 10 % 10), digitChar (n.natAbs % 10)] := by
    simp [List.dropWhile_cons, hdot]
  have hne : (natDigitList (n.natAbs / 100)).map digitChar ≠ [] := by
    simp [natDigitList_ne_nil]
  have hvals : ((natDigitList (n.natAbs / 100)).map digitChar).map digitVal =
      natDigitList (n.natAbs / 100) := by
    rw [List.map_map]
    have : ∀ d ∈ natDigitList (n.natAbs / 100), (digitVal ∘ digitChar) d = id d := by
      intro d hd
      exact digitVal_digitChar d (natDigitList_all_lt _ d hd)
    rw [List.map_congr_left this, List.map_id]
  have hempty : ((natDigitList (n.natAbs / 100)).map digitChar).isEmpty = false := by
    cases h : (natDigitList (n.natAbs / 100)).map digitChar with
    | nil => exact absurd h hne
    | cons a l => rfl
  have hparse : parseFixed2 (fmtInt n) = some ((n : ℚ) / 100) := by
    rw [heq]
    unfold parseFixed2
    rw [htw.1, htw.2, hrest_tw, hrest_dw, List.append_nil]
    rw [if_pos (by simp [hempty, digitChar_isDigit _ h1lt, digitChar_isDigit _ h2lt])]
    congr 1
    simp only [List.getD]
    rw [hvals, ofDigitsNat_natDigitList]
    simp only [List.get?, Option.getD_some]
    rw [digitVal_digitChar _ h1lt, digitVal_digitChar _ h2lt]
    have hb : 10 * (n.natAbs / 10 % 10) + n.natAbs % 10 = n.natAbs % 100 := by omega
    rw [hb]
    have hqm : ((n.natAbs : ℕ) : ℚ) = (n : ℚ) := by
      rw [Int.cast_natAbs]
      have habs : |n| = n := abs_of_nonneg hn
      exact_mod_cast congrArg (fun z : ℤ => (z : ℚ)) habs
    have hval : ((n.natAbs / 100 : ℕ) : ℚ) * 100 + ((n.natAbs % 100 : ℕ) : ℚ) =
        ((n.natAbs : ℕ) : ℚ) := by
      exact_mod_cast (by omega : n.natAbs / 100 * 100 + n.natAbs % 100 = n.natAbs)
    linarith [hqm, hval]
  refine ⟨hparse, ?_, ?_, ?_⟩
  · unfold checkFixed2
    rw [hparse]
    rfl
  · rw [heq]
    simp
  · rw [heq]
    intro c hc
    rw [List.mem_append] at hc
    rcases hc with hc | hc
    · exact isDigit_ne_space c (hall c hc)
    · rcases hc with _ | ⟨_, hc⟩
      · decide
      · rcases hc with _ | ⟨_, hc⟩
        · exact digitChar_ne_space _ h1lt
        · rcases hc with _ | ⟨_, hc⟩
          · exact digitChar_ne_space _ h2lt
          · cases hc

/-- Formatting a value of `[lo, hi)` yields a token that parses back to
`round2 q / 100`, lies in the closed interval `[lo, hi]`, and matches the
two-decimal shape. -/
theorem format2Chars_spec (q : ℚ) (lo hi : ℤ) (hlo : 0 ≤ lo)
    (h1 : (lo : ℚ) ≤ q) (h2 : q < (hi : ℚ)) :
    parseFixed2 (format2Chars q) = some ((round2 q : ℚ) / 100) ∧
      (lo : ℚ) ≤ (round2 q : ℚ) / 100 ∧ (round2 q : ℚ) / 100 ≤ (hi : ℚ) ∧
      checkFixed2 (format2Chars q) = true ∧
      format2Chars q ≠ [] ∧ (∀ c ∈ format2Chars q, c ≠ ' ') := by
  have hmem := round2_mem q lo hi h1 h2
  have hr0 : 0 ≤ round2 q := by
    have := hmem.1
    omega
  have hspec := fmtInt_spec (round2 q) hr0
  have hcast1 : ((100 * lo : ℤ) : ℚ) ≤ ((round2 q : ℤ) : ℚ) := by exact_mod_cast hmem.1
  have hcast2 : ((round2 q : ℤ) : ℚ) ≤ ((100 * hi : ℤ) : ℚ) := by exact_mod_cast hmem.2
  push_cast at hcast1 hcast2
  unfold format2Chars
  exact ⟨hspec.1, by linarith, by linarith, hspec.2.1, hspec.2.2.1, hspec.2.2.2⟩

/-! Joining with single spaces and splitting at spaces. -/

/-- Python's `' '.join` on a list of token character lists
(source lines 22 and 24). -/
def joinSp : List (List Char) → List Char
  | [] => []
  | [t] => t
  | t :: t2 :: ts => t ++ ' ' :: joinSp (t2 :: ts)

/-- Split a character list at single space characters; the inverse of
`joinSp` on space-free tokens. -/
def splitSp : List Char → List (List Char)
  | [] => [[]]
  | c :: cs =>
    if c = ' ' then [] :: splitSp cs
    else
      match splitSp cs with
      | [] => [[c]]
      | t :: ts => (c :: t) :: ts

theorem splitSp_no_space (t : List Char) (h : ∀ c ∈ t, c ≠ ' ') :
    splitSp t = [t] := by
  induction t with
  | nil => rfl
  | cons c cs ih =>
    have hc : c ≠ ' ' := h c (by simp)
    have ihh := ih (fun x hx => h x (by simp [hx]))
    simp [splitSp, hc, ihh]

theorem splitSp_append (t r : List Char) (h : ∀ c ∈ t, c ≠ ' ') :
    splitSp (t ++ ' ' :: r) = t :: splitSp r := by
  induction t with
  | nil => simp [splitSp]
  | cons c cs ih =>
    have hc : c ≠ ' ' := h c (by simp)
    have ihh := ih (fun x hx => h x (by simp [hx]))
    simp [splitSp, hc, ihh]

theorem splitSp_joinSp (ts : List (List Char)) (hne : ts ≠ [])
    (h : ∀ t ∈ ts, ∀ c ∈ t, c ≠ ' ') : splitSp (joinSp ts) = ts := by
  induction ts with
  | nil => exact absurd rfl hne
  | cons t ts2 ih =>
    cases ts2 with
    | nil => exact splitSp_no_space t (h t (by simp))
    | cons t2 ts3 =>
      have hjoin : joinSp (t :: t2 :: ts3) = t ++ ' ' :: joinSp (t2 :: ts3) := rfl
      rw [hjoin, splitSp_append t _ (h t (by simp))]
      rw [ih (by simp) (fun x hx c hc => h x (by simp [hx]) c hc)]

/-! The per-address payload branches of `start_server` (lines 17-24 of
`server.py`). -/

/-- Line 18: nozzle temperature for address `127.0.0.27`,
`f"{random.uniform(20.0, 30.0):.2f}"`; consumes one raw draw. -/
def payload27 (u : Nat → ℚ) (i : Nat) : String × Nat :=
  (format2 (uniform 20 30 (u i)), i + 1)

/-- Line 20: cone temperature for address `127.0.0.28`, same expression as
line 18. -/
def payload28 (u : Nat → ℚ) (i : Nat) : String × Nat :=
  (format2 (uniform 20 30 (u i)), i + 1)

/-- Line 22: 16 pressures from scanner 203, each
`f"{random.uniform(10.0, 20.0):.2f}"`, joined with single spaces;
consumes 16 raw draws. -/
def payload203 (u : Nat → ℚ) (i : Nat) : String × Nat :=
  (String.mk (joinSp ((List.range 16).map
    (fun k => format2Chars (uniform 10 20 (u (i + k)))))), i + 16)

/-- Line 24: 16 pressures from scanner 204, same expression as line 22. -/
def payload204 (u : Nat → ℚ) (i : Nat) : String × Nat :=
  (String.mk (joinSp ((List.range 16).map
    (fun k => format2Chars (uniform 10 20 (u (i + k)))))), i + 16)

/-- The `if ip == ...` chain of lines 17-24: the response for a bound
address together with the new cursor into the shared random stream, or
`none` when no branch assigns `response`. -/
def respOf (ip : String) (u : Nat → ℚ) (i : Nat) : Option (String × Nat) :=
  if ip = "127.0.0.27" then some (payload27 u i)
  else if ip = "127.0.0.28" then some (payload28 u i)
  else if ip = "127.0.0.203" then some (payload203 u i)
  else if ip = "127.0.0.204" then some (payload204 u i)
  else none

/-- The four addresses the script binds responders to (line 33). -/
def allAddrs : List String :=
  ["127.0.0.27", "127.0.0.28", "127.0.0.203", "127.0.0.204"]

/-- Raw draws consumed from the shared random stream by one connection at
each address. -/
def consumedOf (ip : String) : Nat :=
  if ip = "127.0.0.27" then 1
  else if ip = "127.0.0.28" then 1
  else if ip = "127.0.0.203" then 16
  else if ip = "127.0.0.204" then 16
  else 0

/-- The response computed from a fresh view of the random stream. -/
def freshResp (ip : String) (v : Nat → ℚ) : Option String :=
  (respOf ip v 0).map Prod.fst

/-- The branch chain consumes exactly `consumedOf ip` draws starting at
the cursor, and the response is a function of those draws alone. -/
theorem respOf_decomp (ip : String) (u : Nat → ℚ) (i : Nat) :
    respOf ip u i =
      (freshResp ip (fun m => u (i + m))).map (fun r => (r, i + consumedOf ip)) := by
  simp only [respOf, freshResp, consumedOf, payload27, payload28, payload203, payload204]
  split_ifs <;> simp

/-! The connection-handling body of the accept loop (lines 11-27). -/

/-- Observable socket actions of one loop iteration. -/
inductive SockEvent where
  | accepted : SockEvent
  | received : List Nat → SockEvent
  | sent : String → SockEvent
  | closed : SockEvent
deriving DecidableEq

/-- A UTF-8 continuation byte (`10xxxxxx`). -/
def utf8Cont (b : Nat) : Bool := 128 ≤ b && b ≤ 191

/-- Strict UTF-8 decoding of a byte list into code points, as Python's
`bytes.decode()` does on line 13: `none` models the `UnicodeDecodeError`
raised for bytes that are not valid UTF-8.  Leads `C0`/`C1` and
`F5`..`FF`, bare continuation bytes, truncated sequences, overlong
encodings, surrogates and code points beyond `0x10FFFF` are all
rejected. -/
def decodeUtf8 : List Nat → Option (List Char)
  | [] => some []
  | b :: bs =>
    if b ≤ 127 then
      (decodeUtf8 bs).map (fun cs => Char.ofNat b :: cs)
    else if 194 ≤ b && b ≤ 223 then
      match bs with
      | b1 :: bs2 =>
        if utf8Cont b1 then
          (decodeUtf8 bs2).map (fun cs => Char.ofNat ((b - 192) * 64 + (b1 - 128)) :: cs)
        else none
      | [] => none
    else if 224 ≤ b && b ≤ 239 then
      match bs with
      | b1 :: b2 :: bs2 =>
        if (if b = 224 then 160 ≤ b1 && b1 ≤ 191
            else if b = 237 then 128 ≤ b1 && b1 ≤ 159
            else utf8Cont b1) && utf8Cont b2 then
          (decodeUtf8 bs2).map (fun cs =>
            Char.ofNat ((b - 224) * 4096 + (b1 - 128) * 64 + (b2 - 128)) :: cs)
        else none
      | _ => none
    else if 240 ≤ b && b ≤ 244 then
      match bs with
      | b1 :: b2 :: b3 :: bs2 =>
        if (if b = 240 then 144 ≤ b1 && b1 ≤ 191
            else if b = 244 then 128 ≤ b1 && b1 ≤ 143
            else utf8Cont b1) && utf8Cont b2 && utf8Cont b3 then
          (decodeUtf8 bs2).map (fun cs =>
            Char.ofNat ((b - 240) * 262144 + (b1 - 128) * 4096 +
              (b2 - 128) * 64 + (b3 - 128)) :: cs)
        else none
      | _ => none
    else none

/-- Decode request bytes for the log line (`data.decode()` on line 13,
strict UTF-8): `none` when the bytes do not decode, in which case the
handler dies of `UnicodeDecodeError` before printing, sending or
closing. -/
def decodeStr (bs : List Nat) : Option String := (decodeUtf8 bs).map String.mk

/-- Outcome of one accepted connection: log lines written, socket events
in order, new random-stream cursor, and the unhandled exception if one
was raised. -/
structure ConnOutcome where
  log : List String
  events : List SockEvent
  rngAfter : Nat
  err : Option String
deriving DecidableEq

/-- Handle one accepted connection (lines 11-27): receive at most 1024
request bytes and decode them (line 13).  If the bytes are not valid
UTF-8 the handler dies of `UnicodeDecodeError` right there: no second log
line, no send, no close.  Otherwise the decoded text is logged and
otherwise unused, the response comes from the branch chain, and is sent
before the close.  When no branch assigned `response`, the send on
line 26 raises `NameError`: nothing is sent and the connection is not
closed by the handler. -/
def handleConn (ip : String) (u : Nat → ℚ) (i : Nat) (req : List Nat) : ConnOutcome :=
  match decodeStr (req.take 1024) with
  | none =>
      ⟨["Connection from client"],
        [SockEvent.accepted, SockEvent.received (req.take 1024)], i,
        some "UnicodeDecodeError"⟩
  | some s =>
      match respOf ip u i with
      | some ri =>
          ⟨["Connection from client", "Received data: " ++ s],
            [SockEvent.accepted, SockEvent.received (req.take 1024),
              SockEvent.sent ri.1, SockEvent.closed], ri.2, none⟩
      | none =>
          ⟨["Connection from client", "Received data: " ++ s],
            [SockEvent.accepted, SockEvent.received (req.take 1024)], i,
            some "NameError"⟩

/-! The `while True` accept loop (lines 10-27). -/

/-- State of one responder's accept loop: cursor into the shared random
stream and, once an exception has escaped the loop body, that
exception. -/
structure LoopState where
  rng : Nat
  dead : Option String
deriving DecidableEq

/-- One loop iteration.  `fault` injects an external socket error for
this iteration (bind conflict, peer reset and the like); the body has no
handler, so any error ends the loop for good. -/
def stepServer (ip : String) (u : Nat → ℚ) (req : List Nat) (fault : Option String)
    (s : LoopState) : List SockEvent × LoopState :=
  match s.dead with
  | some _ => ([], s)
  | none =>
    match fault with
    | some e => ([], ⟨s.rng, some e⟩)
    | none =>
      let o := handleConn ip u s.rng req
      (o.events, ⟨o.rngAfter, o.err⟩)

/-- The loop state after `n` iterations, under request oracle `reqs` and
fault oracle `faults`. -/
def runServer (ip : String) (u : Nat → ℚ) (reqs : Nat → List Nat)
    (faults : Nat → Option String) : Nat → LoopState
  | 0 => ⟨0, none⟩
  | n + 1 => (stepServer ip u (reqs n) (faults n) (runServer ip u reqs faults n)).2

/-- The socket events of iteration `n`. -/
def eventsAt (ip : String) (u : Nat → ℚ) (reqs : Nat → List Nat)
    (faults : Nat → Option String) (n : Nat) : List SockEvent :=
  (stepServer ip u (reqs n) (faults n) (runServer ip u reqs faults n)).1

/-- The payloads of the send events in a trace. -/
def sentOf (evs : List SockEvent) : List String :=
  evs.filterMap (fun e => match e with | SockEvent.sent r => some r | _ => none)

/-- Connections handled by the responder threads in some interleaved
order `sched` (one entry per accepted connection, naming the handling
responder's bound address), all drawing from the single module-level
random stream: each connection's response, and the final cursor.  Each
connection's draws are taken here as one block; this is exact for
single-draw (temperature) connections — the granularity the GIL makes
atomic is the individual draw, which `runDraws` below models. -/
def runSched (u : Nat → ℚ) : List String → Nat → List (Option String) × Nat
  | [], i => ([], i)
  | ip :: rest, i =>
    match respOf ip u i with
    | some ri =>
        let t := runSched u rest ri.2
        (some ri.1 :: t.1, t.2)
    | none =>
        let t := runSched u rest i
        (none :: t.1, t.2)

/-- Total number of raw draws a schedule of connections consumes. -/
def sumConsumed (l : List String) : Nat := (l.map consumedOf).sum

/-! Basic facts about the branch chain and the loop. -/

theorem respOf_27 (u : Nat → ℚ) (i : Nat) :
    respOf "127.0.0.27" u i = some (payload27 u i) := rfl

theorem respOf_28 (u : Nat → ℚ) (i : Nat) :
    respOf "127.0.0.28" u i = some (payload28 u i) := rfl

theorem respOf_203 (u : Nat → ℚ) (i : Nat) :
    respOf "127.0.0.203" u i = some (payload203 u i) := rfl

theorem respOf_204 (u : Nat → ℚ) (i : Nat) :
    respOf "127.0.0.204" u i = some (payload204 u i) := rfl

theorem freshResp_isSome (ip : String) (hip : ip ∈ allAddrs) (v : Nat → ℚ) :
    (freshResp ip v).isSome = true := by
  simp only [allAddrs, List.mem_cons, List.not_mem_nil, or_false] at hip
  rcases hip with rfl | rfl | rfl | rfl <;> rfl

theorem respOf_isSome (ip : String) (hip : ip ∈ allAddrs) (u : Nat → ℚ) (i : Nat) :
    ∃ r, respOf ip u i = some (r, i + consumedOf ip) := by
  obtain ⟨r, hr⟩ := Option.isSome_iff_exists.mp (freshResp_isSome ip hip (fun m => u (i + m)))
  exact ⟨r, by rw [respOf_decomp, hr]; rfl⟩

theorem handleConn_some (ip : String) (u : Nat → ℚ) (i : Nat) (req : List Nat)
    (s : String) (r : String) (j : Nat)
    (hdec : decodeStr (req.take 1024) = some s) (h : respOf ip u i = some (r, j)) :
    handleConn ip u i req =
      ⟨["Connection from client", "Received data: " ++ s],
        [SockEvent.accepted, SockEvent.received (req.take 1024),
          SockEvent.sent r, SockEvent.closed], j, none⟩ := by
  unfold handleConn
  rw [hdec, h]

theorem handleConn_none (ip : String) (u : Nat → ℚ) (i : Nat) (req : List Nat)
    (s : String) (hdec : decodeStr (req.take 1024) = some s)
    (h : respOf ip u i = none) :
    handleConn ip u i req =
      ⟨["Connection from client", "Received data: " ++ s],
        [SockEvent.accepted, SockEvent.received (req.take 1024)], i, some "NameError"⟩ := by
  unfold handleConn
  rw [hdec, h]

theorem handleConn_decode_fail (ip : String) (u : Nat → ℚ) (i : Nat) (req : List Nat)
    (hdec : decodeStr (req.take 1024) = none) :
    handleConn ip u i req =
      ⟨["Connection from client"],
        [SockEvent.accepted, SockEvent.received (req.take 1024)], i,
        some "UnicodeDecodeError"⟩ := by
  unfold handleConn
  rw [hdec]

theorem runServer_no_fault (ip : String) (hip : ip ∈ allAddrs) (u : Nat → ℚ)
    (reqs : Nat → List Nat)
    (hreq : ∀ n, (decodeStr ((reqs n).take 1024)).isSome = true) (n : Nat) :
    runServer ip u reqs (fun _ => none) n = ⟨consumedOf ip * n, none⟩ := by
  induction n with
  | zero => simp [runServer]
  | succ n ih =>
    obtain ⟨s, hs⟩ := Option.isSome_iff_exists.mp (hreq n)
    obtain ⟨r, hr⟩ := respOf_isSome ip hip u (consumedOf ip * n)
    rw [runServer, ih]
    simp [stepServer, handleConn_some ip u (consumedOf ip * n) (reqs n) s r _ hs hr,
      Nat.mul_succ]

/-! Claim theorems. -/

/-- C1: for every connection to a single-value address (`127.0.0.27` or
`127.0.0.28`) under a valid random stream, the response string parses as a
number in the closed interval `[20.00, 30.00]` and is formatted with
exactly two fractional digits. -/
theorem single_addr_response_in_range (ip : String)
    (hip : ip = "127.0.0.27" ∨ ip = "127.0.0.28")
    (u : Nat → ℚ) (hu : ∀ n, 0 ≤ u n ∧ u n < 1) (i : Nat) :
    ∃ r j q, respOf ip u i = some (r, j) ∧ parseFixed2 r.data = some q ∧
      20 ≤ q ∧ q ≤ 30 ∧ checkFixed2 r.data = true := by
  have hun := uniform_mem 20 30 (u i) (by norm_num) (hu i).1 (hu i).2
  have hspec := format2Chars_spec (uniform 20 30 (u i)) 20 30 (by norm_num)
    (by push_cast; exact hun.1) (by push_cast; exact hun.2)
  have h1 : (20 : ℚ) ≤ (round2 (uniform 20 30 (u i)) : ℚ) / 100 := by
    exact_mod_cast hspec.2.1
  have h2 : (round2 (uniform 20 30 (u i)) : ℚ) / 100 ≤ 30 := by
    exact_mod_cast hspec.2.2.1
  rcases hip with rfl | rfl
  · exact ⟨format2 (uniform 20 30 (u i)), i + 1, (round2 (uniform 20 30 (u i)) : ℚ) / 100,
      respOf_27 u i, hspec.1, h1, h2, hspec.2.2.2.1⟩
  · exact ⟨format2 (uniform 20 30 (u i)), i + 1, (round2 (uniform 20 30 (u i)) : ℚ) / 100,
      respOf_28 u i, hspec.1, h1, h2, hspec.2.2.2.1⟩

theorem single_addr_response_in_range_witness :
    ∃ r j q, respOf "127.0.0.27" (fun _ => (0 : ℚ)) 0 = some (r, j) ∧
      parseFixed2 r.data = some q ∧ 20 ≤ q ∧ q ≤ 30 ∧ checkFixed2 r.data = true :=
  single_addr_response_in_range "127.0.0.27" (Or.inl rfl) (fun _ => 0)
    (fun _ => ⟨le_refl 0, by norm_num⟩) 0

/-- C2: for every connection to an array address (`127.0.0.203` or
`127.0.0.204`) under a valid random stream, the response splits into
exactly 16 space-separated tokens, each formatted to two decimal places
and parsing as a number in the closed interval `[10.00, 20.00]`. -/
theorem array_addr_response_16_tokens (ip : String)
    (hip : ip = "127.0.0.203" ∨ ip = "127.0.0.204")
    (u : Nat → ℚ) (hu : ∀ n, 0 ≤ u n ∧ u n < 1) (i : Nat) :
    ∃ r j, respOf ip u i = some (r, j) ∧
      (splitSp r.data).length = 16 ∧
      ∀ t ∈ splitSp r.data, checkFixed2 t = true ∧
        ∃ q, parseFixed2 t = some q ∧ 10 ≤ q ∧ q ≤ 20 := by
  have hv : ∀ k : Nat, 10 ≤ uniform 10 20 (u (i + k)) ∧ uniform 10 20 (u (i + k)) < 20 :=
    fun k => uniform_mem 10 20 (u (i + k)) (by norm_num) (hu _).1 (hu _).2
  have hspec := fun k : Nat => format2Chars_spec (uniform 10 20 (u (i + k))) 10 20
    (by norm_num) (by push_cast; exact (hv k).1) (by push_cast; exact (hv k).2)
  have hns : ∀ t ∈ (List.range 16).map (fun k => format2Chars (uniform 10 20 (u (i + k)))),
      ∀ c ∈ t, c ≠ ' ' := by
    intro t ht
    rw [List.mem_map] at ht
    obtain ⟨k, _, rfl⟩ := ht
    exact (hspec k).2.2.2.2.2
  have hsp : splitSp (joinSp ((List.range 16).map
      (fun k => format2Chars (uniform 10 20 (u (i + k)))))) =
      (List.range 16).map (fun k => format2Chars (uniform 10 20 (u (i + k)))) :=
    splitSp_joinSp _ (by simp) hns
  have hlen : (splitSp (joinSp ((List.range 16).map
      (fun k => format2Chars (uniform 10 20 (u (i + k))))))).length = 16 := by
    rw [hsp]
    simp
  have hall : ∀ t ∈ splitSp (joinSp ((List.range 16).map
      (fun k => format2Chars (uniform 10 20 (u (i + k)))))),
      checkFixed2 t = true ∧ ∃ q, parseFixed2 t = some q ∧ 10 ≤ q ∧ q ≤ 20 := by
    rw [hsp]
    intro t ht
    rw [List.mem_map] at ht
    obtain ⟨k, _, rfl⟩ := ht
    refine ⟨(hspec k).2.2.2.1, (round2 (uniform 10 20 (u (i + k))) : ℚ) / 100,
      (hspec k).1, ?_, ?_⟩
    · exact_mod_cast (hspec k).2.1
    · exact_mod_cast (hspec k).2.2.1
  rcases hip with rfl | rfl
  · exact ⟨String.mk (joinSp ((List.range 16).map
      (fun k => format2Chars (uniform 10 20 (u (i + k)))))), i + 16,
      respOf_203 u i, hlen, hall⟩
  · exact ⟨String.mk (joinSp ((List.range 16).map
      (fun k => format2Chars (uniform 10 20 (u (i + k)))))), i + 16,
      respOf_204 u i, hlen, hall⟩

theorem array_addr_response_16_tokens_witness :
    ∃ r j, respOf "127.0.0.203" (fun _ => (0 : ℚ)) 0 = some (r, j) ∧
      (splitSp r.data).length = 16 ∧
      ∀ t ∈ splitSp r.data, checkFixed2 t = true ∧
        ∃ q, parseFixed2 t = some q ∧ 10 ≤ q ∧ q ≤ 20 :=
  array_addr_response_16_tokens "127.0.0.203" (Or.inl rfl) (fun _ => 0)
    (fun _ => ⟨le_refl 0, by norm_num⟩) 0

/-- C3: for an address that is none of the four recognized ones, no branch
assigns `response`: the connection never produces a payload, is not closed
by the handler, and the handler dies — of `NameError` at the send
whenever the request bytes decode (of `UnicodeDecodeError` already at the
decode otherwise). -/
theorem unrecognized_addr_no_response (ip : String) (hip : ip ∉ allAddrs)
    (u : Nat → ℚ) (i : Nat) (req : List Nat) :
    respOf ip u i = none ∧
      (handleConn ip u i req).events =
        [SockEvent.accepted, SockEvent.received (req.take 1024)] ∧
      sentOf (handleConn ip u i req).events = [] ∧
      (handleConn ip u i req).err.isSome = true ∧
      (∀ s, decodeStr (req.take 1024) = some s →
        (handleConn ip u i req).err = some "NameError") := by
  have h1 : ip ≠ "127.0.0.27" := fun h => hip (by simp [allAddrs, h])
  have h2 : ip ≠ "127.0.0.28" := fun h => hip (by simp [allAddrs, h])
  have h3 : ip ≠ "127.0.0.203" := fun h => hip (by simp [allAddrs, h])
  have h4 : ip ≠ "127.0.0.204" := fun h => hip (by simp [allAddrs, h])
  have hnone : respOf ip u i = none := by
    simp [respOf, h1, h2, h3, h4]
  cases hdec : decodeStr (req.take 1024) with
  | none =>
    rw [handleConn_decode_fail ip u i req hdec]
    refine ⟨hnone, rfl, rfl, rfl, ?_⟩
    intro s hs
    cases hs
  | some s0 =>
    rw [handleConn_none ip u i req s0 hdec hnone]
    refine ⟨hnone, rfl, rfl, rfl, ?_⟩
    intro s _
    rfl

theorem unrecognized_addr_no_response_witness :
    respOf "10.0.0.1" (fun _ => (0 : ℚ)) 0 = none ∧
      (handleConn "10.0.0.1" (fun _ => (0 : ℚ)) 0 []).events =
        [SockEvent.accepted, SockEvent.received (([] : List Nat).take 1024)] ∧
      sentOf (handleConn "10.0.0.1" (fun _ => (0 : ℚ)) 0 []).events = [] ∧
      (handleConn "10.0.0.1" (fun _ => (0 : ℚ)) 0 []).err.isSome = true ∧
      (∀ s, decodeStr (([] : List Nat).take 1024) = some s →
        (handleConn "10.0.0.1" (fun _ => (0 : ℚ)) 0 []).err = some "NameError") :=
  unrecognized_addr_no_response "10.0.0.1" (by decide) (fun _ => 0) 0 []

/-- C4 counterexample: the claim that the formatted temperature token is
always strictly below 30.0 is false: a raw draw of 0.9999 gives the value
29.999, which two-decimal rounding formats as `30.00`, parsing to exactly
30. -/
theorem temp_token_lt_30_counterexample :
    ¬ (∀ u : Nat → ℚ, (∀ n, 0 ≤ u n ∧ u n < 1) → ∀ i r j q,
        respOf "127.0.0.27" u i = some (r, j) → parseFixed2 r.data = some q →
          q < 30) := by
  intro h
  have hu : ∀ n : Nat, 0 ≤ (fun _ => (9999/10000 : ℚ)) n ∧
      (fun _ => (9999/10000 : ℚ)) n < 1 := fun _ => ⟨by norm_num, by norm_num⟩
  have hresp : respOf "127.0.0.27" (fun _ => (9999/10000 : ℚ)) 0 =
      some (format2 (uniform 20 30 (9999/10000)), 0 + 1) :=
    respOf_27 (fun _ => (9999/10000 : ℚ)) 0
  have hv : uniform 20 30 (9999/10000 : ℚ) = 29999/1000 := by norm_num [uniform]
  have hr : round2 (29999/1000 : ℚ) = 3000 := by
    unfold round2
    rw [show (100 : ℚ) * (29999/1000) = 29999/10 by norm_num]
    exact rhe_eq_up _ 3000 (by norm_num) (by norm_num)
  have hparse : parseFixed2 (format2 (uniform 20 30 (9999/10000 : ℚ))).data = some 30 := by
    show parseFixed2 (format2Chars (uniform 20 30 (9999/10000 : ℚ))) = some 30
    rw [hv]
    unfold format2Chars
    rw [hr, (fmtInt_spec 3000 (by norm_num)).1]
    norm_num
  have := h _ hu 0 _ (0 + 1) _ hresp hparse
  norm_num at this

/-- C4 (amended): for every connection to a temperature address whose
request bytes decode as UTF-8 (an undecodable request kills the handler
before any send), the response is a single space-free token matching the
two-decimal shape whose numeric value lies in the closed interval
`[20.0, 30.0]` (rounding can reach `30.00` exactly, so the interval is
closed, not half-open). -/
theorem temp_response_single_token_le_30 (ip : String)
    (hip : ip = "127.0.0.27" ∨ ip = "127.0.0.28")
    (u : Nat → ℚ) (hu : ∀ n, 0 ≤ u n ∧ u n < 1) (i : Nat) (req : List Nat)
    (hdec : (decodeStr (req.take 1024)).isSome = true) :
    ∃ r q, sentOf (handleConn ip u i req).events = [r] ∧
      splitSp r.data = [r.data] ∧ checkFixed2 r.data = true ∧
      parseFixed2 r.data = some q ∧ 20 ≤ q ∧ q ≤ 30 := by
  obtain ⟨s, hs⟩ := Option.isSome_iff_exists.mp hdec
  have hun := uniform_mem 20 30 (u i) (by norm_num) (hu i).1 (hu i).2
  have hspec := format2Chars_spec (uniform 20 30 (u i)) 20 30 (by norm_num)
    (by push_cast; exact hun.1) (by push_cast; exact hun.2)
  have h1 : (20 : ℚ) ≤ (round2 (uniform 20 30 (u i)) : ℚ) / 100 := by
    exact_mod_cast hspec.2.1
  have h2 : (round2 (uniform 20 30 (u i)) : ℚ) / 100 ≤ 30 := by
    exact_mod_cast hspec.2.2.1
  have hsingle : splitSp (format2Chars (uniform 20 30 (u i))) =
      [format2Chars (uniform 20 30 (u i))] :=
    splitSp_no_space _ hspec.2.2.2.2.2
  rcases hip with rfl | rfl
  · refine ⟨format2 (uniform 20 30 (u i)), (round2 (uniform 20 30 (u i)) : ℚ) / 100,
      ?_, hsingle, hspec.2.2.2.1, hspec.1, h1, h2⟩
    rw [handleConn_some "127.0.0.27" u i req s _ _ hs (respOf_27 u i)]
    rfl
  · refine ⟨format2 (uniform 20 30 (u i)), (round2 (uniform 20 30 (u i)) : ℚ) / 100,
      ?_, hsingle, hspec.2.2.2.1, hspec.1, h1, h2⟩
    rw [handleConn_some "127.0.0.28" u i req s _ _ hs (respOf_28 u i)]
    rfl

theorem temp_response_single_token_le_30_witness :
    ∃ r q, sentOf (handleConn "127.0.0.27" (fun _ => (0 : ℚ)) 0
        [112, 105, 110, 103]).events = [r] ∧
      splitSp r.data = [r.data] ∧ checkFixed2 r.data = true ∧
      parseFixed2 r.data = some q ∧ 20 ≤ q ∧ q ≤ 30 :=
  temp_response_single_token_le_30 "127.0.0.27" (Or.inl rfl) (fun _ => 0)
    (fun _ => ⟨le_refl 0, by norm_num⟩) 0 [112, 105, 110, 103] rfl

/-- C5 counterexample: request content does influence the response,
because line 13 UTF-8-validates it: from the same generator state, the
decodable request `[112]` (`"p"`) gets a payload sent, while `[255]`
(invalid UTF-8) kills the handler with `UnicodeDecodeError` and nothing
is sent. -/
theorem request_content_counterexample :
    sentOf (handleConn "127.0.0.27" (fun _ => (0 : ℚ)) 0 [112]).events ≠
      sentOf (handleConn "127.0.0.27" (fun _ => (0 : ℚ)) 0 [255]).events ∧
      (handleConn "127.0.0.27" (fun _ => (0 : ℚ)) 0 [255]).err =
        some "UnicodeDecodeError" := by
  have h1 := handleConn_some "127.0.0.27" (fun _ => (0 : ℚ)) 0 [112]
    (String.mk [Char.ofNat 112]) _ _ rfl (respOf_27 _ 0)
  have h2 := handleConn_decode_fail "127.0.0.27" (fun _ => (0 : ℚ)) 0 [255] rfl
  rw [h1, h2]
  constructor
  · simp [sentOf]
  · rfl

/-- C5 (amended): the request bytes are not parsed beyond the strict
UTF-8 decode of line 13, whose result reaches only the log: between any
two requests that decode, the content does not influence the response —
same sent payloads, same new cursor, same error status; an undecodable
request instead kills the handler with no response at all. -/
theorem request_content_ignored (ip : String) (u : Nat → ℚ) (i : Nat)
    (req1 req2 : List Nat)
    (hd1 : (decodeStr (req1.take 1024)).isSome = true)
    (hd2 : (decodeStr (req2.take 1024)).isSome = true) :
    sentOf (handleConn ip u i req1).events = sentOf (handleConn ip u i req2).events ∧
      (handleConn ip u i req1).rngAfter = (handleConn ip u i req2).rngAfter ∧
      (handleConn ip u i req1).err = (handleConn ip u i req2).err ∧
      (∀ s, decodeStr (req1.take 1024) = some s →
        (handleConn ip u i req1).log =
          ["Connection from client", "Received data: " ++ s]) := by
  obtain ⟨s1, hs1⟩ := Option.isSome_iff_exists.mp hd1
  obtain ⟨s2, hs2⟩ := Option.isSome_iff_exists.mp hd2
  cases h : respOf ip u i with
  | some ri =>
      rw [handleConn_some ip u i req1 s1 ri.1 ri.2 hs1 (by rw [h]),
        handleConn_some ip u i req2 s2 ri.1 ri.2 hs2 (by rw [h])]
      refine ⟨rfl, rfl, rfl, ?_⟩
      intro s hs
      rw [hs1] at hs
      cases hs
      rfl
  | none =>
      rw [handleConn_none ip u i req1 s1 hs1 h, handleConn_none ip u i req2 s2 hs2 h]
      refine ⟨rfl, rfl, rfl, ?_⟩
      intro s hs
      rw [hs1] at hs
      cases hs
      rfl

theorem request_content_ignored_witness :
    sentOf (handleConn "127.0.0.28" (fun _ => (0 : ℚ)) 0 [112, 105, 110, 103]).events =
        sentOf (handleConn "127.0.0.28" (fun _ => (0 : ℚ)) 0 []).events ∧
      (handleConn "127.0.0.28" (fun _ => (0 : ℚ)) 0 [112, 105, 110, 103]).rngAfter =
        (handleConn "127.0.0.28" (fun _ => (0 : ℚ)) 0 []).rngAfter ∧
      (handleConn "127.0.0.28" (fun _ => (0 : ℚ)) 0 [112, 105, 110, 103]).err =
        (handleConn "127.0.0.28" (fun _ => (0 : ℚ)) 0 []).err ∧
      (∀ s, decodeStr (([112, 105, 110, 103] : List Nat).take 1024) = some s →
        (handleConn "127.0.0.28" (fun _ => (0 : ℚ)) 0 [112, 105, 110, 103]).log =
          ["Connection from client", "Received data: " ++ s]) :=
  request_content_ignored "127.0.0.28" (fun _ => 0) 0 [112, 105, 110, 103] [] rfl rfl

/-- C6: no reading state persists between connections: in a fault-free
run whose requests all decode, the response sent on the n-th connection
is the responder's fixed function of the fresh block of raw draws
starting at cursor `consumedOf ip * n` — freshly sampled every time,
never cached from an earlier connection. -/
theorem responses_freshly_sampled (ip : String) (hip : ip ∈ allAddrs)
    (u : Nat → ℚ) (reqs : Nat → List Nat)
    (hreq : ∀ n, (decodeStr ((reqs n).take 1024)).isSome = true) (n : Nat) :
    ∃ r, freshResp ip (fun k => u (consumedOf ip * n + k)) = some r ∧
      sentOf (eventsAt ip u reqs (fun _ => none) n) = [r] := by
  obtain ⟨s, hs⟩ := Option.isSome_iff_exists.mp (hreq n)
  obtain ⟨r, hfr⟩ := Option.isSome_iff_exists.mp
    (freshResp_isSome ip hip (fun k => u (consumedOf ip * n + k)))
  have hr : respOf ip u (consumedOf ip * n) =
      some (r, consumedOf ip * n + consumedOf ip) := by
    rw [respOf_decomp, hfr]
    rfl
  refine ⟨r, hfr, ?_⟩
  unfold eventsAt
  rw [runServer_no_fault ip hip u reqs hreq n]
  simp [stepServer, handleConn_some ip u (consumedOf ip * n) (reqs n) s r _ hs hr, sentOf]

theorem responses_freshly_sampled_witness :
    ∃ r, freshResp "127.0.0.27"
        (fun k => (fun _ => (0 : ℚ)) (consumedOf "127.0.0.27" * 1 + k)) = some r ∧
      sentOf (eventsAt "127.0.0.27" (fun _ => (0 : ℚ)) (fun _ => [])
        (fun _ => none) 1) = [r] :=
  responses_freshly_sampled "127.0.0.27" (by simp [allAddrs]) (fun _ => 0)
    (fun _ => []) (fun _ => rfl) 1

/-- C7 counterexample: the connection is not closed unconditionally: with
request bytes `[255]` (invalid UTF-8) the handler of `127.0.0.27` dies at
the decode of line 13 — the accepted connection sees no send and no
close, and the loop is dead afterwards, accepting nothing more. -/
theorem connection_lifecycle_counterexample :
    eventsAt "127.0.0.27" (fun _ => (0 : ℚ)) (fun _ => [255]) (fun _ => none) 0 =
        [SockEvent.accepted, SockEvent.received [255]] ∧
      (runServer "127.0.0.27" (fun _ => (0 : ℚ)) (fun _ => [255]) (fun _ => none) 1).dead =
        some "UnicodeDecodeError" ∧
      eventsAt "127.0.0.27" (fun _ => (0 : ℚ)) (fun _ => [255]) (fun _ => none) 1 = [] := by
  refine ⟨?_, ?_, ?_⟩ <;> rfl

/-- C7 (amended): under fault-free operation on a recognized address,
with requests that decode as UTF-8, every loop iteration accepts a
connection, performs exactly one receive of at most 1024 bytes and
exactly one send, then closes — in that order — and this holds for every
iteration index, i.e. the loop accepts connections forever.  An
undecodable request instead kills the responder with no send and no
close. -/
theorem connection_lifecycle (ip : String) (hip : ip ∈ allAddrs)
    (u : Nat → ℚ) (reqs : Nat → List Nat)
    (hreq : ∀ n, (decodeStr ((reqs n).take 1024)).isSome = true) (n : Nat) :
    ∃ r, eventsAt ip u reqs (fun _ => none) n =
        [SockEvent.accepted, SockEvent.received ((reqs n).take 1024),
          SockEvent.sent r, SockEvent.closed] ∧
      ((reqs n).take 1024).length ≤ 1024 := by
  obtain ⟨s, hs⟩ := Option.isSome_iff_exists.mp (hreq n)
  obtain ⟨r, hr⟩ := respOf_isSome ip hip u (consumedOf ip * n)
  refine ⟨r, ?_, ?_⟩
  · unfold eventsAt
    rw [runServer_no_fault ip hip u reqs hreq n]
    simp [stepServer, handleConn_some ip u (consumedOf ip * n) (reqs n) s r _ hs hr]
  · rw [List.length_take]
    exact Nat.min_le_left _ _

theorem connection_lifecycle_witness :
    ∃ r, eventsAt "127.0.0.28" (fun _ => (0 : ℚ)) (fun _ => [1, 2, 3])
        (fun _ => none) 2 =
        [SockEvent.accepted, SockEvent.received (([1, 2, 3] : List Nat).take 1024),
          SockEvent.sent r, SockEvent.closed] ∧
      (([1, 2, 3] : List Nat).take 1024).length ≤ 1024 :=
  connection_lifecycle "127.0.0.28" (by simp [allAddrs]) (fun _ => 0)
    (fun _ => [1, 2, 3]) (fun _ => rfl) 2

theorem stepServer_dead (ip : String) (u : Nat → ℚ) (req : List Nat)
    (fault : Option String) (rng : Nat) (e : String) :
    stepServer ip u req fault ⟨rng, some e⟩ = ([], ⟨rng, some e⟩) := rfl

/-- C8: no failure mode is handled: if the loop is alive at iteration `n`
and a socket error strikes there, then at every later point the loop is
dead, still carrying that same unhandled error, and produces no further
events — no retry, no backoff, no supervisor restart. -/
theorem fault_fatal_no_retry (ip : String) (u : Nat → ℚ) (reqs : Nat → List Nat)
    (faults : Nat → Option String) (n : Nat) (e : String)
    (halive : (runServer ip u reqs faults n).dead = none)
    (hf : faults n = some e) :
    ∀ m, n < m → (runServer ip u reqs faults m).dead = some e ∧
      eventsAt ip u reqs faults m = [] := by
  have hstep : stepServer ip u (reqs n) (faults n) (runServer ip u reqs faults n) =
      ([], ⟨(runServer ip u reqs faults n).rng, some e⟩) := by
    cases hs : runServer ip u reqs faults n with
    | mk rng dead =>
      cases dead with
      | none => simp [stepServer, hf]
      | some x =>
        rw [hs] at halive
        simp at halive
  have hn1 : runServer ip u reqs faults (n + 1) =
      ⟨(runServer ip u reqs faults n).rng, some e⟩ := by
    rw [runServer, hstep]
  have hpersist : ∀ k, runServer ip u reqs faults (n + 1 + k) =
      ⟨(runServer ip u reqs faults n).rng, some e⟩ := by
    intro k
    induction k with
    | zero => exact hn1
    | succ k ih =>
      have hidx : n + 1 + (k + 1) = (n + 1 + k) + 1 := rfl
      rw [hidx, runServer, ih, stepServer_dead]
  intro m hm
  obtain ⟨k, rfl⟩ : ∃ k, m = n + 1 + k := ⟨m - (n + 1), by omega⟩
  constructor
  · rw [hpersist k]
  · unfold eventsAt
    rw [hpersist k, stepServer_dead]

theorem fault_fatal_no_retry_witness :
    (runServer "127.0.0.27" (fun _ => (0 : ℚ)) (fun _ => [])
        (fun _ => some "ConnectionResetError") 2).dead = some "ConnectionResetError" ∧
      eventsAt "127.0.0.27" (fun _ => (0 : ℚ)) (fun _ => [])
        (fun _ => some "ConnectionResetError") 2 = [] :=
  fault_fatal_no_retry "127.0.0.27" (fun _ => 0) (fun _ => [])
    (fun _ => some "ConnectionResetError") 0 "ConnectionResetError" rfl rfl 2
    (by omega)

/-- C10: the payload branches for `127.0.0.27` and `127.0.0.28` are the
same function of the random stream, as are the branches for `127.0.0.203`
and `127.0.0.204`, and the temperature and scanner shapes differ: the four
addresses realize exactly two distinct payload shapes. -/
theorem two_payload_shapes :
    payload27 = payload28 ∧ payload203 = payload204 ∧ payload27 ≠ payload203 := by
  refine ⟨rfl, rfl, ?_⟩
  intro h
  have h2 := congrArg (fun f => (f (fun _ => (0 : ℚ)) 0).2) h
  simp [payload27, payload203] at h2

/-- A concrete raw-draw stream: first draw 0, all later draws 1/2. -/
def u9 : Nat → ℚ := fun n => if n = 0 then 0 else 1/2

theorem u9_valid (n : Nat) : 0 ≤ u9 n ∧ u9 n < 1 := by
  unfold u9
  split_ifs <;> norm_num

/-- C9 counterexample: the responders do share mutable state — the
module-level random generator.  With the stream `u9`, the temperature
responder on `127.0.0.27` answers `20.00` when it handles the first
connection of the process, but `25.00` when the responder on `127.0.0.28`
has handled a connection before it, because that connection consumed a
draw from the shared generator. -/
theorem rng_not_shared_counterexample :
    ¬ (∀ u : Nat → ℚ, (∀ n, 0 ≤ u n ∧ u n < 1) →
        (runSched u ["127.0.0.28", "127.0.0.27"] 0).1.get? 1 =
          (runSched u ["127.0.0.27"] 0).1.get? 0) := by
  intro h
  have hL : (runSched u9 ["127.0.0.28", "127.0.0.27"] 0).1.get? 1 =
      some (some (format2 (uniform 20 30 (u9 1)))) := by
    simp [runSched, respOf_27, respOf_28, payload27, payload28]
  have hR : (runSched u9 ["127.0.0.27"] 0).1.get? 0 =
      some (some (format2 (uniform 20 30 (u9 0)))) := by
    simp [runSched, respOf_27, payload27]
  have hthis := h u9 u9_valid
  rw [hL, hR] at hthis
  have hv1 : uniform 20 30 (u9 1) = 25 := by norm_num [uniform, u9]
  have hv0 : uniform 20 30 (u9 0) = 20 := by norm_num [uniform, u9]
  rw [hv1, hv0] at hthis
  have h25 : round2 (25 : ℚ) = 2500 := by
    unfold round2
    rw [show (100 : ℚ) * 25 = 2500 by norm_num]
    exact rhe_eq_down _ 2500 (by norm_num) (by norm_num)
  have h20 : round2 (20 : ℚ) = 2000 := by
    unfold round2
    rw [show (100 : ℚ) * 20 = 2000 by norm_num]
    exact rhe_eq_down _ 2000 (by norm_num) (by norm_num)
  have hne : format2 (25 : ℚ) ≠ format2 (20 : ℚ) := by
    unfold format2 format2Chars
    rw [h25, h20]
    decide
  exact hne (by simpa using hthis)

theorem freshResp_none_consumed (ip : String) (v : Nat → ℚ)
    (h : freshResp ip v = none) : consumedOf ip = 0 := by
  unfold freshResp respOf at h
  unfold consumedOf
  split_ifs at h ⊢ <;> simp_all

theorem sumConsumed_cons (ip : String) (l : List String) :
    sumConsumed (ip :: l) = consumedOf ip + sumConsumed l := by
  simp [sumConsumed]

theorem runSched_cursor (u : Nat → ℚ) (sched : List String) (i : Nat) :
    (runSched u sched i).2 = i + sumConsumed sched := by
  induction sched generalizing i with
  | nil => simp [runSched, sumConsumed]
  | cons ip rest ih =>
    cases hfr : freshResp ip (fun m => u (i + m)) with
    | some r =>
      have hresp : respOf ip u i = some (r, i + consumedOf ip) := by
        rw [respOf_decomp, hfr]
        rfl
      have hrun : runSched u (ip :: rest) i =
          (some r :: (runSched u rest (i + consumedOf ip)).1,
            (runSched u rest (i + consumedOf ip)).2) := by
        simp [runSched, hresp]
      rw [hrun]
      show (runSched u rest (i + consumedOf ip)).2 = i + sumConsumed (ip :: rest)
      rw [ih, sumConsumed_cons]
      omega
    | none =>
      have hresp : respOf ip u i = none := by
        rw [respOf_decomp, hfr]
        rfl
      have hc0 : consumedOf ip = 0 := freshResp_none_consumed ip _ hfr
      have hrun : runSched u (ip :: rest) i =
          (none :: (runSched u rest i).1, (runSched u rest i).2) := by
        simp [runSched, hresp]
      rw [hrun]
      show (runSched u rest i).2 = i + sumConsumed (ip :: rest)
      rw [ih, sumConsumed_cons, hc0]
      omega

/-- Draw-level interleaving of the responder threads: the GIL serialises
individual `random()` calls, so threads can interleave between — but not
within — single draws.  `σ` lists, in temporal order, which pending
connection issues each call (a scanner connection occupies 16 slots that
need not be contiguous); the machine threads the shared cursor and
appends each drawn value to the issuing connection's received draws. -/
def runDraws (u : Nat → ℚ) : List Nat → Nat → (Nat → List ℚ) → (Nat → List ℚ) × Nat
  | [], i, acc => (acc, i)
  | c :: σ, i, acc =>
      runDraws u σ (i + 1) (fun c2 => if c2 = c then acc c2 ++ [u i] else acc c2)

/-- The temporal slots (0-based positions in a draw schedule) at which
connection `c` draws. -/
def slotsOf (c : Nat) : List Nat → List Nat
  | [] => []
  | c2 :: σ =>
      if c2 = c then 0 :: (slotsOf c σ).map (fun t => t + 1)
      else (slotsOf c σ).map (fun t => t + 1)

/-- C9 (amended): the responder threads do share one piece of mutable
state — the module-level random generator — and they share it one atomic
draw at a time: under any draw-level interleaving, the shared cursor
advances by exactly one per draw regardless of which thread drew, and
each connection receives exactly the shared stream's values at its own
temporal slots.  Apart from this generator, each responder owns its
socket and loop state, so a connection's draws — and through `freshResp`
its response — depend on the other threads only through which stream
positions their interleaved draws left to it. -/
theorem rng_shared_one_draw_at_a_time (u : Nat → ℚ) (σ : List Nat) (i : Nat)
    (acc : Nat → List ℚ) :
    (runDraws u σ i acc).2 = i + σ.length ∧
      ∀ c, (runDraws u σ i acc).1 c =
        acc c ++ (slotsOf c σ).map (fun t => u (i + t)) := by
  induction σ generalizing i acc with
  | nil =>
    constructor
    · simp [runDraws]
    · intro c
      simp [runDraws, slotsOf]
  | cons c0 σ ih =>
    have hstep : runDraws u (c0 :: σ) i acc =
        runDraws u σ (i + 1) (fun c2 => if c2 = c0 then acc c2 ++ [u i] else acc c2) := rfl
    have ih2 := ih (i + 1) (fun c2 => if c2 = c0 then acc c2 ++ [u i] else acc c2)
    have hmap : ∀ l : List Nat,
        (l.map (fun t => t + 1)).map (fun t => u (i + t)) =
          l.map (fun t => u (i + 1 + t)) := by
      intro l
      rw [List.map_map]
      apply List.map_congr_left
      intro t _
      show u (i + (t + 1)) = u (i + 1 + t)
      congr 1
      omega
    constructor
    · rw [hstep, ih2.1]
      simp only [List.length_cons]
      omega
    · intro c
      rw [hstep, ih2.2 c]
      by_cases hc : c = c0
      · subst hc
        rw [if_pos rfl, List.append_assoc]
        congr 1
        have hslots : slotsOf c (c :: σ) = 0 :: (slotsOf c σ).map (fun t => t + 1) := by
          rw [slotsOf, if_pos rfl]
        rw [hslots, List.map_cons, hmap]
        simp
      · rw [if_neg hc]
        congr 1
        have hslots : slotsOf c (c0 :: σ) = (slotsOf c σ).map (fun t => t + 1) := by
          rw [slotsOf, if_neg (fun h => hc h.symm)]
        rw [hslots, hmap]
